import Mathlib

/-!
# Verification of `riots.py`

A shallow embedding of the riots.im publishing script (`src/riots.py`)
together with theorems settling the specification claims.

The script is sequential orchestration glue over three external systems:
an S3-like object store, HTTP downloads, and the local filesystem.  We
model the store as the list of keys currently present, and the external
world (HTTP status codes, extracted-archive listings, file contents,
file trees walked by `os.walk`) as a fixed deterministic environment
`Env`.  Store writes, network fetch attempts, and Python exceptions are
made explicit in the run results.
-/

namespace Riots

/-- A release asset, as returned by the GitHub API: `{'name': ...,
'browser_download_url': ...}`.  The URL field is optional because the
Python code reads it with `.get('browser_download_url', None)`. -/
structure Asset where
  name : String
  browser_download_url : Option String
  deriving Repr, DecidableEq

/-- A GitHub release record with the fields `riots.py` reads:
`tag_name`, `name` (display name), `body` (changelog, possibly absent),
`created_at`, `assets`. -/
structure Release where
  tag_name : String
  name : String
  body : Option String
  created_at : String
  assets : List Asset
  deriving Repr, DecidableEq

/-- One entry of the hardcoded `OLDER_RELEASES` table:
`{'name': ..., 'body': ..., 'date': ...}`. -/
structure OlderRelease where
  name : String
  body : String
  date : String
  deriving Repr, DecidableEq

/-- The destination object store, modelled by the list of keys present.
Puts append keys; nothing is ever deleted. -/
abbrev Store := List String

/-- Python exceptions that the `upload` flow can raise. -/
inductive PyErr where
  /-- `requests.get(None)` raises `MissingSchema` (from
  `get_download_link` returning `None`). -/
  | missingSchema
  /-- `filename` referenced before assignment (download status ≠ 200 and
  no earlier iteration bound `filename`). -/
  | nameError
  /-- `os.listdir(...)[0]` on an empty extraction directory. -/
  | indexError
  /-- `shutil.copyfile` with a missing source file. -/
  | fileNotFound
  deriving Repr, DecidableEq

/-- Result of probing `bucket.Object(key).last_modified`: either the
object exists, or botocore raises a `ClientError` carrying an error
code (`'404'` for not-found). -/
inductive S3ProbeResult where
  | found
  | clientError (code : String)
  deriving Repr, DecidableEq

/-- The deterministic external world an upload/index run interacts with:
HTTP status codes by URL, directory listing of the per-version
extraction directory (keyed by version name and tarball filename), file
contents by path, the relative paths `os.walk` finds under a tree root,
and the markdown→HTML rendering pipeline
(`BeautifulSoup(markdown(...)).prettify()`). -/
structure Env where
  httpStatus : String → Nat
  explodedList : String → String → List String
  fs : String → Option String
  treeFiles : String → List String
  renderMd : String → String

/-- Python's `str.endswith(suffix)`, computed on the character
sequences. -/
def strEndsWith (s suffix : String) : Bool :=
  suffix.data.isSuffixOf s.data

/-- Python's `str.split(sep)` for a single-character separator,
computed on the character sequence: splitting the empty string yields
`[[]]` (Python: `''.split('.') == ['']`). -/
def splitOnChar (sep : Char) : List Char → List (List Char)
  | [] => [[]]
  | c :: cs =>
    match splitOnChar sep cs with
    | [] => if c = sep then [[], []] else [[c]]
    | g :: gs => if c = sep then [] :: g :: gs else (c :: g) :: gs

/-- The value of a decimal digit character, `none` for a non-digit. -/
def digitVal (c : Char) : Option Nat :=
  if '0' ≤ c ∧ c ≤ '9' then some (c.toNat - '0'.toNat) else none

/-- Accumulate decimal digits left to right; `none` on a non-digit. -/
def parseDigits : List Char → Nat → Option Nat
  | [], acc => some acc
  | c :: cs, acc =>
    match digitVal c with
    | none => none
    | some d => parseDigits cs (acc * 10 + d)

/-- Python's `int(x)` on a version component: an optional leading minus
sign followed by at least one decimal digit; `none` models the
`ValueError` raised otherwise. -/
def parseInt : List Char → Option Int
  | [] => none
  | '-' :: cs =>
    match cs with
    | [] => none
    | _ => (parseDigits cs 0).map (fun n => -(n : Int))
  | cs => (parseDigits cs 0).map (fun n => (n : Int))

/-! ## Version comparison (`compare_version_strings`, riots.py:116-125) -/

/-- Python's `(a_part > b_part) - (a_part < b_part)` sign expression. -/
def pyCmp (x y : Int) : Int :=
  (if x > y then (1 : Int) else 0) - (if x < y then (1 : Int) else 0)

/-- Python's lexicographic `<` on lists of integers, as used by
`max(a, b)` in `compare_version_strings`. -/
def listLtInt : List Int → List Int → Bool
  | [], [] => false
  | [], _ :: _ => true
  | _ :: _, [] => false
  | x :: xs, y :: ys => if x < y then true else if y < x then false else listLtInt xs ys

/-- Python's two-argument `max(a, b)` on lists: returns `b` when
`a < b` lexicographically, else `a`. -/
def pyMaxList (a b : List Int) : List Int :=
  if listLtInt a b then b else a

/-- The `for i in range(...)` loop body of `compare_version_strings`:
starting at index `i` with `fuel` iterations left, compare the
zero-defaulted components and return early on the first difference. -/
def cvsFrom (a b : List Int) : Nat → Nat → Int
  | _, 0 => 0
  | i, fuel + 1 =>
    let a_part := a.getD i 0
    let b_part := b.getD i 0
    if a_part ≠ b_part then pyCmp a_part b_part else cvsFrom a b (i + 1) fuel

/-- `compare_version_strings` on already-split integer component lists:
loop `for i in range(len(max(a, b)))` returning the sign of the first
differing zero-defaulted component, else `0`. -/
def compareVersionLists (a b : List Int) : Int :=
  cvsFrom a b 0 (pyMaxList a b).length

/-- `[int(x) for x in s.split('.')]`; `none` when some component is not
an integer literal (Python would raise `ValueError`). -/
def parse_version (s : String) : Option (List Int) :=
  (splitOnChar '.' s.data).mapM parseInt

/-- `compare_version_strings(a, b)` (riots.py:116-125): split both
strings on `'.'`, parse components as integers, then run the comparison
loop.  `none` models the `ValueError` raised on non-integer input. -/
def compare_version_strings (a b : String) : Option Int := do
  let xa ← parse_version a
  let xb ← parse_version b
  pure (compareVersionLists xa xb)

/-- The sign of the first differing pair, `0` when none differs. -/
def firstDiff : List (Int × Int) → Int
  | [] => 0
  | (x, y) :: rest => if x ≠ y then pyCmp x y else firstDiff rest

/-- Modelled from the spec: component-wise comparison of two integer
component lists, missing trailing components treated as zero, returning
the sign of the first differing component.  This is the specification's
description of `compare_version_strings`; the theorems compare it with
the source translation `compareVersionLists`. -/
def cmpPadded (a b : List Int) : Int :=
  let n := max a.length b.length
  firstDiff ((a ++ List.replicate (n - a.length) 0).zip
    (b ++ List.replicate (n - b.length) 0))

/-! ## Small helpers of the upload/index flow -/

/-- `get_download_link(release)` (riots.py:141-147): keep the assets
whose name ends with the extension (default `'.tar.gz'`); if there is
not exactly one, return `None`, else that asset's
`browser_download_url` (itself possibly absent). -/
def get_download_link (release : Release) (extension : String := ".tar.gz") : Option String :=
  match release.assets.filter (fun asset => strEndsWith asset.name extension) with
  | [a] => a.browser_download_url
  | _ => none

/-- `get_name(release)` (riots.py:149-150): `release.get('tag_name')[1:]`
— drop the first character of the tag, unconditionally. -/
def get_name (release : Release) : String :=
  release.tag_name.drop 1

/-- `is_version_uploaded(bucket, version)` (riots.py:152-160) over an
abstract store probe: probe the key `version + '/'`; a `ClientError`
with code `'404'` means "not uploaded", any other `ClientError` code is
re-raised (modelled by `Except.error code`), success means
"uploaded". -/
def is_version_uploaded (probe : String → S3ProbeResult) (version : String) :
    Except String Bool :=
  match probe (version ++ "/") with
  | .found => .ok true
  | .clientError code => if code ≠ "404" then .error code else .ok false

/-- Probe of a healthy store: the object is found exactly when its key
is present, otherwise the store reports a 404 `ClientError`. -/
def Store.probe (st : Store) (key : String) : S3ProbeResult :=
  if st.contains key then .found else .clientError "404"

/-- `is_version_uploaded` against a healthy store, as a pure Boolean:
is the marker key `version + '/'` present? -/
def isUploadedPure (st : Store) (version : String) : Bool :=
  st.contains (version ++ "/")

/-! ## `upload_directory` (riots.py:196-211) -/

/-- `upload_directory(name, root, bucket)` (riots.py:196-211): for every
file found under `root` (relative path `full_path[len(root):]`), put an
object at key `name + relative_path`; afterwards put the zero-length
marker object at key `name + '/'`.  Returns the new store and the
ordered list of keys written. -/
def upload_directory (name root : String) (env : Env) (st : Store) :
    Store × List String :=
  let writes := (env.treeFiles root).map (fun rel => name ++ rel) ++ [name ++ "/"]
  (st ++ writes, writes)

/-! ## Configuration injection (riots.py:246-251) -/

/-- The config-injection step of `upload` (riots.py:246-251): for every
version other than `'0.9.0'` copy `tar_root + '/config.sample.json'` to
`tar_root + '/config.json'`; for `'0.9.0'` copy the fixed external file
`'config.0.9.0.json'` instead.  `shutil.copyfile` raises when the
source file is missing. -/
def inject_config (fs : String → Option String) (name tar_root : String) :
    Except PyErr (String → Option String) :=
  if name ≠ "0.9.0" then
    match fs (tar_root ++ "/config.sample.json") with
    | none => .error .fileNotFound
    | some c => .ok (fun p => if p = tar_root ++ "/config.json" then some c else fs p)
  else
    match fs "config.0.9.0.json" with
    | none => .error .fileNotFound
    | some c => .ok (fun p => if p = tar_root ++ "/config.json" then some c else fs p)

/-! ## The `upload` flow (riots.py:214-256) -/

/-- Outcome of processing a single modern release in `upload`'s second
loop: the store afterwards, the keys written, the `(version, url)`
pairs passed to `requests.get`, the value of the local Python variable
`filename` afterwards, and the exception, if one was raised. -/
structure StepResult where
  store : Store
  writes : List String
  fetches : List (String × String)
  filename : Option String
  err : Option PyErr
  deriving Repr

/-- Outcome of a whole loop / upload run: final store, ordered write
log, ordered fetch log, and the exception that aborted the run, if
any. -/
structure RunResult where
  store : Store
  writes : List String
  fetches : List (String × String)
  err : Option PyErr
  deriving Repr

/-- The body of `upload`'s modern-release loop for one release
(riots.py:229-256), after the `'0.7.3'` break check: skip if the marker
exists; otherwise fetch the download link (`requests.get(None)` raises
`MissingSchema` when there is no unambiguous asset), download when the
status is 200 (binding the local variable `filename`), extract and read
the single top-level entry of the extraction directory (raising
`IndexError` when it is empty, `NameError` when `filename` was never
bound), inject the configuration file, and upload the tree with its
marker. -/
def processModern (env : Env) (release : Release) (filename : Option String)
    (st : Store) : StepResult :=
  let name := get_name release
  if isUploadedPure st name then
    ⟨st, [], [], filename, none⟩
  else
    match get_download_link release with
    | none => ⟨st, [], [], filename, some .missingSchema⟩
    | some url =>
      let status := env.httpStatus url
      let filename' :=
        if status = 200 then
          some ("/tmp/downloads/" ++ name ++ "/" ++ name ++ ".tar.gz")
        else filename
      match filename' with
      | none => ⟨st, [], [(name, url)], none, some .nameError⟩
      | some fn =>
        match env.explodedList name fn with
        | [] => ⟨st, [], [(name, url)], filename', some .indexError⟩
        | top :: _ =>
          let tar_root := "/tmp/exploded/" ++ name ++ "/" ++ top
          match inject_config env.fs name tar_root with
          | .error e => ⟨st, [], [(name, url)], filename', some e⟩
          | .ok _ =>
            ⟨(upload_directory name tar_root env st).1,
              (upload_directory name tar_root env st).2, [(name, url)], filename', none⟩

/-- `upload`'s loop over modern releases (riots.py:224-256): for each
release in catalog order, break at the first release whose version is
`'0.7.3'`; otherwise process it, aborting the whole loop when an
exception is raised. -/
def uploadModernLoop (env : Env) : List Release → Option String → Store → RunResult
  | [], _, st => ⟨st, [], [], none⟩
  | release :: rest, filename, st =>
    if get_name release = "0.7.3" then ⟨st, [], [], none⟩
    else
      let step := processModern env release filename st
      match step.err with
      | some e => ⟨step.store, step.writes, step.fetches, some e⟩
      | none =>
        let r := uploadModernLoop env rest step.filename step.store
        ⟨r.store, step.writes ++ r.writes, step.fetches ++ r.fetches, r.err⟩

/-- `upload`'s loop over older releases (riots.py:215-222): for each
hardcoded older release, skip when the marker exists, otherwise upload
the pre-staged directory `older_riots/<name>` with its marker.  Returns
the new store and ordered write log. -/
def uploadOlderLoop (env : Env) : List OlderRelease → Store → Store × List String
  | [], st => (st, [])
  | r :: rest, st =>
    if isUploadedPure st r.name then uploadOlderLoop env rest st
    else
      let p := upload_directory r.name ("older_riots/" ++ r.name) env st
      let q := uploadOlderLoop env rest p.1
      (q.1, p.2 ++ q.2)

/-- `upload(releases, bucket, older_releases)` (riots.py:214-256): first
the older-release loop, then the modern-release loop (the local
variable `filename` starts unbound). -/
def upload (env : Env) (releases : List Release) (older : List OlderRelease)
    (st : Store) : RunResult :=
  let p := uploadOlderLoop env older st
  let r := uploadModernLoop env releases none p.1
  ⟨r.store, p.2 ++ r.writes, r.fetches, r.err⟩

/-! ## The index renderer (riots.py:162-175) -/

/-- One rendered index entry (`{'name': ..., 'body': ..., 'date': ...}`). -/
structure Entry where
  name : String
  body : String
  date : String
  deriving Repr, DecidableEq

/-- The entry built for a modern release in `index`'s list
comprehension (riots.py:166-172): display name with its first character
dropped, changelog rendered to HTML when truthy (non-`None`, non-empty)
and `''` otherwise, and the first ten characters of `created_at`. -/
def entryOf (env : Env) (release : Release) : Entry :=
  { name := release.name.drop 1
    body :=
      match release.body with
      | none => ""
      | some b => if b = "" then "" else env.renderMd b
    date := release.created_at.take 10 }

/-- An `OLDER_RELEASES` dict used directly as a template entry
(riots.py:174-175). -/
def olderEntry (o : OlderRelease) : Entry :=
  ⟨o.name, o.body, o.date⟩

/-- The `released` list built by `index` (riots.py:166-175): the list
comprehension keeping releases whose marker exists, in catalog order,
then — when `older_releases is not None` — the older entries appended
at the end. -/
def indexReleased (env : Env) (releases : List Release) (st : Store)
    (older : Option (List OlderRelease)) : List Entry :=
  let released := releases.foldr
    (fun release acc =>
      if isUploadedPure st (get_name release) then entryOf env release :: acc else acc)
    []
  match older with
  | some os => released ++ os.map olderEntry
  | none => released

/-! ## Concrete fixtures for counterexamples and witnesses -/

/-- A concrete healthy environment: every download succeeds with
status 200, extraction yields a single top-level directory, every file
exists, and each uploaded tree holds one file. -/
def envC : Env :=
  { httpStatus := fun _ => 200
    explodedList := fun _ _ => ["riot"]
    fs := fun _ => some "cfg"
    treeFiles := fun _ => ["/index.html"]
    renderMd := fun s => s }

/-- A modern release with a single unambiguous `.tar.gz` asset. -/
def relModern : Release :=
  { tag_name := "v1.0.0", name := "v1.0.0", body := none
    created_at := "2020-01-01T00:00:00Z"
    assets := [{ name := "riot-v1.0.0.tar.gz",
                 browser_download_url := some "https://dl/riot.tar.gz" }] }

/-- The legacy boundary release `v0.7.3`. -/
def relBoundary : Release :=
  { tag_name := "v0.7.3", name := "v0.7.3", body := none
    created_at := "2016-06-20T00:00:00Z", assets := [] }

/-- A release whose asset list holds two `.tar.gz` files (ambiguous). -/
def relAmbiguous : Release :=
  { tag_name := "v1.1.0", name := "v1.1.0", body := none
    created_at := "2020-02-01T00:00:00Z"
    assets := [{ name := "a.tar.gz", browser_download_url := some "https://dl/a.tar.gz" },
               { name := "b.tar.gz", browser_download_url := some "https://dl/b.tar.gz" }] }

/-! ## Basic store lemmas -/

theorem string_append_left_cancel {a x y : String} (h : a ++ x = a ++ y) : x = y := by
  have h2 : (a ++ x).data = (a ++ y).data := congrArg String.data h
  simp only [String.data_append] at h2
  exact String.ext (List.append_cancel_left h2)

theorem contains_append_of_left {st : Store} {k : String} (w : List String)
    (h : st.contains k = true) : (st ++ w).contains k = true := by
  simp only [List.contains, List.elem_iff, List.mem_append] at *
  exact Or.inl h

theorem contains_append_of_right {w : List String} {k : String} (st : Store)
    (h : w.contains k = true) : (st ++ w).contains k = true := by
  simp only [List.contains, List.elem_iff, List.mem_append] at *
  exact Or.inr h

theorem upload_directory_store_mono {name root : String} {env : Env} {st : Store}
    {k : String} (h : st.contains k = true) :
    (upload_directory name root env st).1.contains k = true := by
  unfold upload_directory
  exact contains_append_of_left _ h

theorem upload_directory_marker_contains {name root : String} {env : Env} {st : Store} :
    isUploadedPure (upload_directory name root env st).1 name = true := by
  unfold upload_directory isUploadedPure
  apply contains_append_of_right
  apply contains_append_of_right
  simp [List.contains]

theorem marker_not_mem_file_keys {name root : String} {env : Env}
    (h : ∀ rel ∈ env.treeFiles root, rel ≠ "/") :
    name ++ "/" ∉ (env.treeFiles root).map (fun rel => name ++ rel) := by
  intro hmem
  obtain ⟨rel, hrel, heq⟩ := List.mem_map.mp hmem
  exact h rel hrel (string_append_left_cancel heq)

/-- **C4.** Marker-written-last: in every execution of
`upload_directory(name, root, bucket)`, the zero-length marker object at
key `name + '/'` is written exactly once, as the final store write,
strictly after every file under `root` has been uploaded (every other
write of the run precedes it and differs from it). -/
theorem upload_directory_marker_written_last (env : Env) (name root : String) (st : Store)
    (h : ∀ rel ∈ env.treeFiles root, rel ≠ "/") :
    (upload_directory name root env st).2 =
        (env.treeFiles root).map (fun rel => name ++ rel) ++ [name ++ "/"] ∧
      (upload_directory name root env st).2.count (name ++ "/") = 1 ∧
      (upload_directory name root env st).2.getLast? = some (name ++ "/") ∧
      ∀ key ∈ (upload_directory name root env st).2.dropLast, key ≠ name ++ "/" := by
  refine ⟨rfl, ?_, ?_, ?_⟩
  · unfold upload_directory
    rw [List.count_append, List.count_singleton]
    rw [List.count_eq_zero.mpr (marker_not_mem_file_keys h)]
    simp
  · unfold upload_directory
    exact List.getLast?_concat _
  · unfold upload_directory
    intro key hkey
    rw [List.dropLast_concat] at hkey
    intro hk
    exact marker_not_mem_file_keys h (hk ▸ hkey)

/-- Witness for C4 at a concrete environment, tree and store. -/
theorem upload_directory_marker_written_last_witness :
    (upload_directory "1.0.0" "/tmp/exploded/1.0.0/riot"
          { httpStatus := fun _ => 200, explodedList := fun _ _ => ["riot"],
            fs := fun _ => some "", treeFiles := fun _ => ["/index.html", "/app.js"],
            renderMd := fun s => s } []).2 =
        ["1.0.0/index.html", "1.0.0/app.js", "1.0.0/"] ∧
      (["1.0.0/index.html", "1.0.0/app.js", "1.0.0/"] : List String).count "1.0.0/" = 1 := by
  have h := upload_directory_marker_written_last
      { httpStatus := fun _ => 200, explodedList := fun _ _ => ["riot"],
        fs := fun _ => some "", treeFiles := fun _ => ["/index.html", "/app.js"],
        renderMd := fun s => s } "1.0.0" "/tmp/exploded/1.0.0/riot" []
      (by intro rel hrel; fin_cases hrel <;> decide)
  refine ⟨?_, ?_⟩
  · exact h.1
  · exact (h.1 ▸ h.2.1 :)

/-- **C6.** Publication-state probe: `is_version_uploaded` probes the
key `version + '/'`; it returns `false` exactly when the store reports
a 404 `ClientError`, returns `true` when the probe succeeds, and
re-raises every `ClientError` whose code is not `'404'`. -/
theorem is_version_uploaded_probe_semantics (probe : String → S3ProbeResult)
    (version : String) :
    (probe (version ++ "/") = .found → is_version_uploaded probe version = .ok true) ∧
      (probe (version ++ "/") = .clientError "404" →
        is_version_uploaded probe version = .ok false) ∧
      (∀ code, probe (version ++ "/") = .clientError code → code ≠ "404" →
        is_version_uploaded probe version = .error code) := by
  refine ⟨fun h => ?_, fun h => ?_, fun code h hcode => ?_⟩
  · unfold is_version_uploaded
    rw [h]
  · unfold is_version_uploaded
    rw [h]
    simp
  · unfold is_version_uploaded
    rw [h]
    simp [hcode]

/-- Witness for C6: the three probe outcomes at concrete inputs. -/
theorem is_version_uploaded_probe_semantics_witness :
    is_version_uploaded (fun _ => .found) "1.0.0" = .ok true ∧
      is_version_uploaded (fun _ => .clientError "404") "1.0.0" = .ok false ∧
      is_version_uploaded (fun _ => .clientError "500") "1.0.0" = .error "500" :=
  ⟨(is_version_uploaded_probe_semantics (fun _ => .found) "1.0.0").1 rfl,
   (is_version_uploaded_probe_semantics (fun _ => .clientError "404") "1.0.0").2.1 rfl,
   (is_version_uploaded_probe_semantics (fun _ => .clientError "500") "1.0.0").2.2
     "500" rfl (by decide)⟩

/-- Bridging lemma: against a healthy store, `is_version_uploaded`
never raises and agrees with the pure marker-membership test. -/
theorem is_version_uploaded_healthy (st : Store) (version : String) :
    is_version_uploaded (Store.probe st) version = .ok (isUploadedPure st version) := by
  unfold is_version_uploaded Store.probe isUploadedPure
  cases h : st.contains (version ++ "/") <;> simp [h]

/-- **C8.** Special-cased configuration injection: when the version
equals `'0.9.0'`, the `config.json` placed in the tree root is a
byte-identical copy of the fixed external file `config.0.9.0.json`; for
every other version it is a copy of the archive's bundled
`config.sample.json` from the tree root. -/
theorem inject_config_variant (fs : String → Option String) (name tar_root : String) :
    (∀ c, name = "0.9.0" → fs "config.0.9.0.json" = some c →
        ∃ fs', inject_config fs name tar_root = .ok fs' ∧
          fs' (tar_root ++ "/config.json") = fs "config.0.9.0.json") ∧
      (∀ c, name ≠ "0.9.0" → fs (tar_root ++ "/config.sample.json") = some c →
        ∃ fs', inject_config fs name tar_root = .ok fs' ∧
          fs' (tar_root ++ "/config.json") = fs (tar_root ++ "/config.sample.json")) := by
  constructor
  · intro c hname hc
    unfold inject_config
    rw [if_neg (by simp [hname]), hc]
    exact ⟨_, rfl, by simp [hc]⟩
  · intro c hname hc
    unfold inject_config
    rw [if_pos hname, hc]
    exact ⟨_, rfl, by simp [hc]⟩

/-- Witness for C8: concrete filesystems for the special-cased version
and for an ordinary version. -/
theorem inject_config_variant_witness :
    (∃ fs', inject_config (fun p => if p = "config.0.9.0.json" then some "A" else none)
          "0.9.0" "/tmp/exploded/0.9.0/riot" = .ok fs' ∧
        fs' "/tmp/exploded/0.9.0/riot/config.json" =
          (fun p => if p = "config.0.9.0.json" then some "A" else none) "config.0.9.0.json") ∧
      (∃ fs', inject_config (fun _ => some "B") "1.0.0" "/tmp/exploded/1.0.0/riot" = .ok fs' ∧
        fs' "/tmp/exploded/1.0.0/riot/config.json" =
          (fun _ => (some "B" : Option String)) "/tmp/exploded/1.0.0/riot/config.sample.json") :=
  ⟨(inject_config_variant (fun p => if p = "config.0.9.0.json" then some "A" else none)
      "0.9.0" "/tmp/exploded/0.9.0/riot").1 "A" rfl (by decide),
   (inject_config_variant (fun _ => some "B") "1.0.0" "/tmp/exploded/1.0.0/riot").2
      "B" (by decide) rfl⟩

/-- **C9.** Changelog rendering of empty bodies: a release whose
changelog body is absent (`None`) or empty renders with body `''` —
never the literal text `"None"` — while a non-empty body is rendered
through the markdown-to-HTML pipeline. -/
theorem entry_body_rendering (env : Env) (release : Release) :
    (release.body = none ∨ release.body = some "" →
        (entryOf env release).body = "" ∧ (entryOf env release).body ≠ "None") ∧
      (∀ b, release.body = some b → b ≠ "" →
        (entryOf env release).body = env.renderMd b) := by
  constructor
  · rintro (h | h) <;>
      · unfold entryOf
        rw [h]
        exact ⟨by simp, by simp⟩
  · intro b hb hne
    unfold entryOf
    rw [hb]
    simp [hne]

/-- Witness for C9 at concrete releases with absent, empty and
non-empty bodies. -/
theorem entry_body_rendering_witness :
    (entryOf
        { httpStatus := fun _ => 200, explodedList := fun _ _ => [],
          fs := fun _ => none, treeFiles := fun _ => [],
          renderMd := fun s => "<p>" ++ s ++ "</p>" }
        { tag_name := "v1.0.0", name := "v1.0.0", body := none,
          created_at := "2020-01-02T03:04:05Z", assets := [] }).body = "" ∧
      (entryOf
        { httpStatus := fun _ => 200, explodedList := fun _ _ => [],
          fs := fun _ => none, treeFiles := fun _ => [],
          renderMd := fun s => "<p>" ++ s ++ "</p>" }
        { tag_name := "v1.0.1", name := "v1.0.1", body := some "hi",
          created_at := "2020-01-02T03:04:05Z", assets := [] }).body = "<p>hi</p>" := by
  constructor
  · exact ((entry_body_rendering _
        { tag_name := "v1.0.0", name := "v1.0.0", body := none,
          created_at := "2020-01-02T03:04:05Z", assets := [] }).1 (Or.inl rfl)).1
  · exact (entry_body_rendering _
        { tag_name := "v1.0.1", name := "v1.0.1", body := some "hi",
          created_at := "2020-01-02T03:04:05Z", assets := [] }).2 "hi" rfl (by decide)

theorem string_drop_one_of_length_le {s : String} (h : s.length ≤ 1) : s.drop 1 = "" := by
  apply String.ext
  show (s.drop 1).data = "".data
  rw [String.data_drop]
  rw [List.drop_eq_nil_iff]
  exact h

/-- **C10.** Version-identifier normalization strips the first
character of the tag unconditionally: `get_name` is `tag_name` with its
first character removed whether or not the tag starts with `'v'`, a tag
of length at most one yields the empty string, and the index display
name is likewise the display-name field with its first character
removed. -/
theorem get_name_strips_first_char (env : Env) (release : Release) :
    get_name release = release.tag_name.drop 1 ∧
      (release.tag_name.length ≤ 1 → get_name release = "") ∧
      (entryOf env release).name = release.name.drop 1 := by
  refine ⟨rfl, fun h => string_drop_one_of_length_le h, rfl⟩

/-- Witness for C10: a tag not starting with `'v'` loses its first
significant character, and a one-character tag yields `''`. -/
theorem get_name_strips_first_char_witness :
    get_name
        { tag_name := "1.0.0", name := "1.0.0", body := none,
          created_at := "", assets := [] } = ".0.0" ∧
      get_name
        { tag_name := "v", name := "v", body := none,
          created_at := "", assets := [] } = "" := by
  constructor
  · exact (get_name_strips_first_char
        { httpStatus := fun _ => 200, explodedList := fun _ _ => [],
          fs := fun _ => none, treeFiles := fun _ => [], renderMd := fun s => s }
        { tag_name := "1.0.0", name := "1.0.0", body := none,
          created_at := "", assets := [] }).1
  · exact (get_name_strips_first_char
        { httpStatus := fun _ => 200, explodedList := fun _ _ => [],
          fs := fun _ => none, treeFiles := fun _ => [], renderMd := fun s => s }
        { tag_name := "v", name := "v", body := none,
          created_at := "", assets := [] }).2.1 (by decide)

/-- **C5.** Index filtering and order: the rendered entry list is
exactly the modern releases whose publication marker exists, mapped to
entries in the input order, followed by the older-release entries
appended unconditionally at the end. -/
theorem index_filters_and_appends (env : Env) (releases : List Release) (st : Store)
    (older : List OlderRelease) :
    indexReleased env releases st (some older) =
      (releases.filter (fun r => isUploadedPure st (get_name r))).map (entryOf env) ++
        older.map olderEntry := by
  unfold indexReleased
  induction releases with
  | nil => simp
  | cons r rest ih =>
    by_cases h : isUploadedPure st (get_name r) = true
    · simp only [List.foldr_cons, List.filter_cons, h, if_pos h, List.map_cons] at *
      simpa using ih
    · simp only [List.foldr_cons, List.filter_cons, h, if_neg h] at *
      simpa [Bool.not_eq_true] using ih

/-! ## Version-comparison lemmas (C7) -/

theorem getD_succ_tail (a : List Int) (i : Nat) : a.getD (i + 1) 0 = a.tail.getD i 0 := by
  cases a <;> simp [List.getD]

theorem cvsFrom_succ_tail (fuel : Nat) :
    ∀ (a b : List Int) (i : Nat), cvsFrom a b (i + 1) fuel = cvsFrom a.tail b.tail i fuel := by
  induction fuel with
  | zero => intro a b i; rfl
  | succ f ih =>
    intro a b i
    simp only [cvsFrom, getD_succ_tail]
    split
    · rfl
    · exact ih a b (i + 1)

theorem cvsFrom_nil_nil (fuel : Nat) : ∀ i, cvsFrom [] [] i fuel = 0 := by
  induction fuel with
  | zero => intro i; rfl
  | succ f ih => intro i; simp [cvsFrom, List.getD, ih]

theorem pyMaxList_nil_left_length (b : List Int) : (pyMaxList [] b).length = b.length := by
  cases b <;> simp [pyMaxList, listLtInt]

theorem pyMaxList_nil_right_length (a : List Int) : (pyMaxList a []).length = a.length := by
  cases a <;> simp [pyMaxList, listLtInt]

theorem pyMaxList_cons_cons_length_pos (x y : Int) (xs ys : List Int) :
    1 ≤ (pyMaxList (x :: xs) (y :: ys)).length := by
  unfold pyMaxList
  split <;> simp

theorem listLtInt_cons_same (x : Int) (xs ys : List Int) :
    listLtInt (x :: xs) (x :: ys) = listLtInt xs ys := by
  simp [listLtInt]

theorem pyMaxList_cons_same_length (x : Int) (xs ys : List Int) :
    (pyMaxList (x :: xs) (x :: ys)).length = (pyMaxList xs ys).length + 1 := by
  unfold pyMaxList
  rw [listLtInt_cons_same]
  split <;> simp

theorem pyCmp_sign (x y : Int) :
    (x < y → pyCmp x y = -1) ∧ (x = y → pyCmp x y = 0) ∧ (y < x → pyCmp x y = 1) := by
  unfold pyCmp
  refine ⟨fun h => ?_, fun h => ?_, fun h => ?_⟩
  · rw [if_neg (by omega), if_pos h]
    decide
  · rw [if_neg (by omega), if_neg (by omega)]
    decide
  · rw [if_pos h, if_neg (by omega)]
    decide

theorem pyCmp_range (x y : Int) : pyCmp x y = -1 ∨ pyCmp x y = 0 ∨ pyCmp x y = 1 := by
  rcases lt_trichotomy x y with h | h | h
  · exact Or.inl ((pyCmp_sign x y).1 h)
  · exact Or.inr (Or.inl ((pyCmp_sign x y).2.1 h))
  · exact Or.inr (Or.inr ((pyCmp_sign x y).2.2 h))

theorem cmpPadded_nil_nil : cmpPadded [] [] = 0 := rfl

theorem cmpPadded_cons_nil (x : Int) (xs : List Int) :
    cmpPadded (x :: xs) [] = if x ≠ 0 then pyCmp x 0 else cmpPadded xs [] := by
  unfold cmpPadded
  simp [List.replicate_succ, firstDiff, List.zip]

theorem cmpPadded_nil_cons (y : Int) (ys : List Int) :
    cmpPadded [] (y :: ys) = if (0 : Int) ≠ y then pyCmp 0 y else cmpPadded [] ys := by
  unfold cmpPadded
  simp [List.replicate_succ, firstDiff, List.zip]

theorem cmpPadded_cons_cons (x y : Int) (xs ys : List Int) :
    cmpPadded (x :: xs) (y :: ys) = if x ≠ y then pyCmp x y else cmpPadded xs ys := by
  unfold cmpPadded
  have hmax : max (xs.length + 1) (ys.length + 1) = max xs.length ys.length + 1 := by
    omega
  simp only [List.length_cons, hmax, List.cons_append, Nat.add_sub_add_right, List.zip_cons_cons,
    firstDiff]
  rfl

theorem cmpPadded_range_nil_right (xs : List Int) :
    cmpPadded xs [] = -1 ∨ cmpPadded xs [] = 0 ∨ cmpPadded xs [] = 1 := by
  induction xs with
  | nil => exact Or.inr (Or.inl rfl)
  | cons x xs ih =>
    rw [cmpPadded_cons_nil]
    split
    · exact pyCmp_range x 0
    · exact ih

theorem cmpPadded_range_nil_left (ys : List Int) :
    cmpPadded [] ys = -1 ∨ cmpPadded [] ys = 0 ∨ cmpPadded [] ys = 1 := by
  induction ys with
  | nil => exact Or.inr (Or.inl rfl)
  | cons y ys ih =>
    rw [cmpPadded_nil_cons]
    split
    · exact pyCmp_range 0 y
    · exact ih

theorem cmpPadded_range (a : List Int) :
    ∀ b, cmpPadded a b = -1 ∨ cmpPadded a b = 0 ∨ cmpPadded a b = 1 := by
  induction a with
  | nil => exact cmpPadded_range_nil_left
  | cons x xs ih =>
    intro b
    cases b with
    | nil => exact cmpPadded_range_nil_right (x :: xs)
    | cons y ys =>
      rw [cmpPadded_cons_cons]
      split
      · exact pyCmp_range x y
      · exact ih ys

theorem cvsFrom_eq_cmpPadded_nil_right (xs : List Int) :
    ∀ fuel, xs.length ≤ fuel → cvsFrom xs [] 0 fuel = cmpPadded xs [] := by
  induction xs with
  | nil =>
    intro fuel _
    rw [cvsFrom_nil_nil]
    rfl
  | cons x xs ih =>
    intro fuel hfuel
    obtain ⟨f, rfl⟩ : ∃ f, fuel = f + 1 := ⟨fuel - 1, by simp at hfuel; omega⟩
    rw [cmpPadded_cons_nil]
    simp only [cvsFrom, List.getD_cons_zero, List.getD_nil]
    split
    · rfl
    · rw [cvsFrom_succ_tail]
      exact ih f (by simp at hfuel; omega)

theorem cvsFrom_eq_cmpPadded_nil_left (ys : List Int) :
    ∀ fuel, ys.length ≤ fuel → cvsFrom [] ys 0 fuel = cmpPadded [] ys := by
  induction ys with
  | nil =>
    intro fuel _
    rw [cvsFrom_nil_nil]
    rfl
  | cons y ys ih =>
    intro fuel hfuel
    obtain ⟨f, rfl⟩ : ∃ f, fuel = f + 1 := ⟨fuel - 1, by simp at hfuel; omega⟩
    rw [cmpPadded_nil_cons]
    simp only [cvsFrom, List.getD_cons_zero, List.getD_nil]
    split
    · rfl
    · rw [cvsFrom_succ_tail]
      exact ih f (by simp at hfuel; omega)

theorem cvsFrom_eq_cmpPadded (a : List Int) :
    ∀ (b : List Int) (fuel : Nat), (pyMaxList a b).length ≤ fuel →
      cvsFrom a b 0 fuel = cmpPadded a b := by
  induction a with
  | nil =>
    intro b fuel hfuel
    rw [pyMaxList_nil_left_length] at hfuel
    exact cvsFrom_eq_cmpPadded_nil_left b fuel hfuel
  | cons x xs ih =>
    intro b fuel hfuel
    cases b with
    | nil =>
      rw [pyMaxList_nil_right_length] at hfuel
      exact cvsFrom_eq_cmpPadded_nil_right (x :: xs) fuel hfuel
    | cons y ys =>
      have hpos := pyMaxList_cons_cons_length_pos x y xs ys
      obtain ⟨f, rfl⟩ : ∃ f, fuel = f + 1 := ⟨fuel - 1, by omega⟩
      rw [cmpPadded_cons_cons]
      simp only [cvsFrom, List.getD_cons_zero]
      split
      · rfl
      · rename_i heq
        simp only [ne_eq, not_not] at heq
        subst heq
        rw [cvsFrom_succ_tail]
        rw [pyMaxList_cons_same_length] at hfuel
        exact ih ys f (by omega)

theorem compareVersionLists_eq_cmpPadded (a b : List Int) :
    compareVersionLists a b = cmpPadded a b :=
  cvsFrom_eq_cmpPadded a b _ le_rfl

/-- **C7.** Version comparison: for every pair of dot-separated integer
version strings, `compare_version_strings` equals the component-wise
comparison of their integer components with missing trailing components
treated as zero, and returns `-1`, `0` or `+1`. -/
theorem compare_version_strings_componentwise (a b : String) (xa xb : List Int)
    (ha : parse_version a = some xa) (hb : parse_version b = some xb) :
    compare_version_strings a b = some (cmpPadded xa xb) ∧
      (cmpPadded xa xb = -1 ∨ cmpPadded xa xb = 0 ∨ cmpPadded xa xb = 1) := by
  constructor
  · unfold compare_version_strings
    rw [ha, hb]
    simp [compareVersionLists_eq_cmpPadded]
  · exact cmpPadded_range xa xb

/-- Witness for C7: `"1.2"` vs `"1.2.0"` compares as `0`. -/
theorem compare_version_strings_componentwise_witness :
    parse_version "1.2" = some [1, 2] ∧
      parse_version "1.2.0" = some [1, 2, 0] ∧
      compare_version_strings "1.2" "1.2.0" = some (cmpPadded [1, 2] [1, 2, 0]) ∧
      cmpPadded [1, 2] [1, 2, 0] = 0 :=
  ⟨by decide, by decide,
   (compare_version_strings_componentwise "1.2" "1.2.0" [1, 2] [1, 2, 0]
      (by decide) (by decide)).1,
   by decide⟩

/-! ## Lemmas about `processModern` and the upload loops (C1-C3) -/

theorem processModern_skip {env : Env} {r : Release} {fn : Option String} {st : Store}
    (h : isUploadedPure st (get_name r) = true) :
    processModern env r fn st = ⟨st, [], [], fn, none⟩ := by
  unfold processModern
  rw [if_pos h]

theorem processModern_store_mono {env : Env} {r : Release} {fn : Option String} {st : Store}
    {k : String} (h : st.contains k = true) :
    (processModern env r fn st).store.contains k = true := by
  simp only [processModern, upload_directory]
  repeat' first
    | exact h
    | exact contains_append_of_left _ h
    | split

theorem processModern_dichotomy (env : Env) (r : Release) (fn : Option String) (st : Store) :
    ((processModern env r fn st).err = none ∧
        isUploadedPure (processModern env r fn st).store (get_name r) = true) ∨
      ((processModern env r fn st).err ≠ none ∧
        (processModern env r fn st).writes = [] ∧
        (processModern env r fn st).store = st) := by
  by_cases hm : isUploadedPure st (get_name r) = true
  · rw [processModern_skip hm]
    exact Or.inl ⟨rfl, hm⟩
  · simp only [processModern]
    rw [if_neg hm]
    repeat' first
      | exact Or.inl ⟨rfl, upload_directory_marker_contains⟩
      | exact Or.inr ⟨Option.some_ne_none _, rfl, rfl⟩
      | split

theorem processModern_err_rerun (env : Env) (r : Release) (st : Store)
    {fn : Option String} {e : PyErr}
    (hunm : isUploadedPure st (get_name r) = false)
    (herr : (processModern env r fn st).err = some e) :
    (processModern env r none st).err ≠ none := by
  simp only [processModern] at herr ⊢
  rw [hunm] at herr ⊢
  simp only [Bool.false_eq_true, if_false] at herr ⊢
  revert herr
  cases hdl : get_download_link r with
  | none =>
    intro _
    simp
  | some url =>
    dsimp only
    by_cases hs : env.httpStatus url = 200
    · simp only [hs, if_true]
      cases hex : env.explodedList (get_name r)
          ("/tmp/downloads/" ++ get_name r ++ "/" ++ get_name r ++ ".tar.gz") with
      | nil =>
        intro _
        simp
      | cons top rest =>
        dsimp only
        cases hic : inject_config env.fs (get_name r)
            ("/tmp/exploded/" ++ get_name r ++ "/" ++ top) with
        | error e2 =>
          intro _
          simp
        | ok fs2 =>
          intro herr
          simp at herr
    · rw [if_neg hs, if_neg hs]
      intro _
      simp

theorem uploadModernLoop_cons (env : Env) (r : Release) (rest : List Release)
    (fn : Option String) (st : Store) :
    uploadModernLoop env (r :: rest) fn st =
      if get_name r = "0.7.3" then ⟨st, [], [], none⟩
      else
        match (processModern env r fn st).err with
        | some e =>
          ⟨(processModern env r fn st).store, (processModern env r fn st).writes,
            (processModern env r fn st).fetches, some e⟩
        | none =>
          ⟨(uploadModernLoop env rest (processModern env r fn st).filename
              (processModern env r fn st).store).store,
            (processModern env r fn st).writes ++
              (uploadModernLoop env rest (processModern env r fn st).filename
                (processModern env r fn st).store).writes,
            (processModern env r fn st).fetches ++
              (uploadModernLoop env rest (processModern env r fn st).filename
                (processModern env r fn st).store).fetches,
            (uploadModernLoop env rest (processModern env r fn st).filename
              (processModern env r fn st).store).err⟩ := rfl

theorem uploadModernLoop_cons_break {env : Env} {r : Release} {rest : List Release}
    {fn : Option String} {st : Store} (hb : get_name r = "0.7.3") :
    uploadModernLoop env (r :: rest) fn st = ⟨st, [], [], none⟩ := by
  rw [uploadModernLoop_cons, if_pos hb]

theorem uploadModernLoop_cons_err {env : Env} {r : Release} {rest : List Release}
    {fn : Option String} {st : Store} {e : PyErr} (hb : ¬ get_name r = "0.7.3")
    (herr : (processModern env r fn st).err = some e) :
    uploadModernLoop env (r :: rest) fn st =
      ⟨(processModern env r fn st).store, (processModern env r fn st).writes,
        (processModern env r fn st).fetches, some e⟩ := by
  rw [uploadModernLoop_cons, if_neg hb, herr]

theorem uploadModernLoop_cons_ok {env : Env} {r : Release} {rest : List Release}
    {fn : Option String} {st : Store} (hb : ¬ get_name r = "0.7.3")
    (hok : (processModern env r fn st).err = none) :
    uploadModernLoop env (r :: rest) fn st =
      ⟨(uploadModernLoop env rest (processModern env r fn st).filename
          (processModern env r fn st).store).store,
        (processModern env r fn st).writes ++
          (uploadModernLoop env rest (processModern env r fn st).filename
            (processModern env r fn st).store).writes,
        (processModern env r fn st).fetches ++
          (uploadModernLoop env rest (processModern env r fn st).filename
            (processModern env r fn st).store).fetches,
        (uploadModernLoop env rest (processModern env r fn st).filename
          (processModern env r fn st).store).err⟩ := by
  rw [uploadModernLoop_cons, if_neg hb, hok]

theorem uploadModernLoop_store_mono (env : Env) :
    ∀ (l : List Release) (fn : Option String) (st : Store) (k : String),
      st.contains k = true → (uploadModernLoop env l fn st).store.contains k = true := by
  intro l
  induction l with
  | nil =>
    intro fn st k h
    exact h
  | cons r rest ih =>
    intro fn st k h
    by_cases hb : get_name r = "0.7.3"
    · rw [uploadModernLoop_cons_break hb]
      exact h
    · cases herr : (processModern env r fn st).err with
      | some e =>
        rw [uploadModernLoop_cons_err hb herr]
        exact processModern_store_mono h
      | none =>
        rw [uploadModernLoop_cons_ok hb herr]
        exact ih _ _ k (processModern_store_mono h)

theorem uploadModernLoop_rerun (env : Env) :
    ∀ (l : List Release) (fn : Option String) (st : Store),
      (uploadModernLoop env l none (uploadModernLoop env l fn st).store).writes = [] := by
  intro l
  induction l with
  | nil =>
    intro fn st
    rfl
  | cons r rest ih =>
    intro fn st
    by_cases hb : get_name r = "0.7.3"
    · rw [uploadModernLoop_cons_break hb, uploadModernLoop_cons_break hb]
    · cases herr : (processModern env r fn st).err with
      | some e =>
        have hunm : isUploadedPure st (get_name r) = false := by
          cases hgn : isUploadedPure st (get_name r)
          · rfl
          · rw [processModern_skip hgn] at herr
            simp at herr
        rcases processModern_dichotomy env r fn st with ⟨hok, _⟩ | ⟨_, _, hst⟩
        · rw [hok] at herr
          cases herr
        · rw [uploadModernLoop_cons_err hb herr]
          dsimp only
          rw [hst]
          have h2 := processModern_err_rerun env r st hunm herr
          cases herr2 : (processModern env r none st).err with
          | none => exact absurd herr2 h2
          | some e2 =>
            rw [uploadModernLoop_cons_err hb herr2]
            rcases processModern_dichotomy env r none st with ⟨hok2, _⟩ | ⟨_, hw2, _⟩
            · rw [hok2] at herr2
              cases herr2
            · exact hw2
      | none =>
        rw [uploadModernLoop_cons_ok hb herr]
        dsimp only
        rcases processModern_dichotomy env r fn st with ⟨_, hmark⟩ | ⟨hne, _, _⟩
        · have hmark2 : isUploadedPure
              (uploadModernLoop env rest (processModern env r fn st).filename
                (processModern env r fn st).store).store (get_name r) = true :=
            uploadModernLoop_store_mono env rest _ _ _ hmark
          have hskip := @processModern_skip env r none _ hmark2
          rw [uploadModernLoop_cons_ok hb (by rw [hskip])]
          rw [hskip]
          dsimp only
          rw [List.nil_append]
          exact ih (processModern env r fn st).filename (processModern env r fn st).store
        · exact absurd herr hne

theorem uploadOlderLoop_cons (env : Env) (r : OlderRelease) (rest : List OlderRelease)
    (st : Store) :
    uploadOlderLoop env (r :: rest) st =
      if isUploadedPure st r.name then uploadOlderLoop env rest st
      else
        ((uploadOlderLoop env rest
            (upload_directory r.name ("older_riots/" ++ r.name) env st).1).1,
          (upload_directory r.name ("older_riots/" ++ r.name) env st).2 ++
            (uploadOlderLoop env rest
              (upload_directory r.name ("older_riots/" ++ r.name) env st).1).2) := rfl

theorem uploadOlderLoop_store_mono (env : Env) :
    ∀ (l : List OlderRelease) (st : Store) (k : String),
      st.contains k = true → (uploadOlderLoop env l st).1.contains k = true := by
  intro l
  induction l with
  | nil =>
    intro st k h
    exact h
  | cons r rest ih =>
    intro st k h
    rw [uploadOlderLoop_cons]
    split
    · exact ih st k h
    · exact ih _ k (upload_directory_store_mono h)

theorem uploadOlderLoop_all_marked (env : Env) :
    ∀ (l : List OlderRelease) (st : Store) (r0 : OlderRelease), r0 ∈ l →
      isUploadedPure (uploadOlderLoop env l st).1 r0.name = true := by
  intro l
  induction l with
  | nil =>
    intro st r0 h
    cases h
  | cons r rest ih =>
    intro st r0 h
    rw [uploadOlderLoop_cons]
    rcases List.mem_cons.mp h with rfl | hmem
    · split
      · rename_i hm
        exact uploadOlderLoop_store_mono env rest st _ hm
      · exact uploadOlderLoop_store_mono env rest _ _ upload_directory_marker_contains
    · split
      · exact ih st r0 hmem
      · exact ih _ r0 hmem

theorem uploadOlderLoop_noop (env : Env) :
    ∀ (l : List OlderRelease) (st : Store),
      (∀ r ∈ l, isUploadedPure st r.name = true) → uploadOlderLoop env l st = (st, []) := by
  intro l
  induction l with
  | nil =>
    intro st _
    rfl
  | cons r rest ih =>
    intro st h
    rw [uploadOlderLoop_cons, if_pos (h r (List.mem_cons_self r rest))]
    exact ih st (fun r0 hm => h r0 (List.mem_cons_of_mem r hm))

theorem upload_def (env : Env) (releases : List Release) (older : List OlderRelease)
    (st : Store) :
    upload env releases older st =
      ⟨(uploadModernLoop env releases none (uploadOlderLoop env older st).1).store,
        (uploadOlderLoop env older st).2 ++
          (uploadModernLoop env releases none (uploadOlderLoop env older st).1).writes,
        (uploadModernLoop env releases none (uploadOlderLoop env older st).1).fetches,
        (uploadModernLoop env releases none (uploadOlderLoop env older st).1).err⟩ := rfl

/-- **C1.** Idempotence of the upload phase: for every catalog of
releases, every older-release list, every store state and every
deterministic external environment, running `upload` twice in
succession performs no store writes (no object puts and no marker
puts) during the second run: every version the first run processed to
completion is marked, so `is_version_uploaded` skips it, and every
release the first run aborted on aborts again before any write. -/
theorem upload_idempotent_no_second_run_writes (env : Env) (releases : List Release)
    (older : List OlderRelease) (st : Store) :
    (upload env releases older (upload env releases older st).store).writes = [] := by
  rw [upload_def, upload_def]
  dsimp only
  have holder : ∀ r0 ∈ older,
      isUploadedPure
        (uploadModernLoop env releases none (uploadOlderLoop env older st).1).store
        r0.name = true := by
    intro r0 hm
    exact uploadModernLoop_store_mono env releases none (uploadOlderLoop env older st).1 _
      (uploadOlderLoop_all_marked env older st r0 hm)
  rw [uploadOlderLoop_noop env older _ holder]
  dsimp only
  rw [List.nil_append]
  exact uploadModernLoop_rerun env releases none (uploadOlderLoop env older st).1

/-! ## The `0.7.3` boundary and fetch behaviour (C2) -/

theorem uploadModernLoop_break_at (env : Env) (b : Release) (post : List Release)
    (hb : get_name b = "0.7.3") :
    ∀ (pre : List Release) (fn : Option String) (st : Store),
      (∀ r ∈ pre, get_name r ≠ "0.7.3") →
      uploadModernLoop env (pre ++ b :: post) fn st = uploadModernLoop env pre fn st := by
  intro pre
  induction pre with
  | nil =>
    intro fn st _
    rw [List.nil_append, uploadModernLoop_cons_break hb]
    rfl
  | cons r pre ih =>
    intro fn st hpre
    have hr : ¬ get_name r = "0.7.3" := hpre r (List.mem_cons_self r pre)
    rw [List.cons_append, uploadModernLoop_cons, uploadModernLoop_cons, if_neg hr, if_neg hr]
    cases herr : (processModern env r fn st).err with
    | some e => rfl
    | none => rw [ih _ _ (fun r0 hm => hpre r0 (List.mem_cons_of_mem r hm))]

theorem processModern_fetches (env : Env) (r : Release) (fn : Option String) (st : Store) :
    (processModern env r fn st).fetches = [] ∨
      ∃ url, (processModern env r fn st).fetches = [(get_name r, url)] := by
  simp only [processModern, upload_directory]
  repeat' first
    | exact Or.inl rfl
    | exact Or.inr ⟨_, rfl⟩
    | split

theorem uploadModernLoop_fetch_names (env : Env) :
    ∀ (l : List Release) (fn : Option String) (st : Store) (p : String × String),
      p ∈ (uploadModernLoop env l fn st).fetches → p.1 ∈ l.map get_name := by
  intro l
  induction l with
  | nil =>
    intro fn st p hp
    cases hp
  | cons r rest ih =>
    intro fn st p hp
    by_cases hb : get_name r = "0.7.3"
    · rw [uploadModernLoop_cons_break hb] at hp
      cases hp
    · cases herr : (processModern env r fn st).err with
      | some e =>
        rw [uploadModernLoop_cons_err hb herr] at hp
        dsimp only at hp
        rcases processModern_fetches env r fn st with h0 | ⟨url, h1⟩
        · rw [h0] at hp
          cases hp
        · rw [h1] at hp
          rw [List.mem_singleton.mp hp]
          exact List.mem_map.mpr ⟨r, List.mem_cons_self r rest, rfl⟩
      | none =>
        rw [uploadModernLoop_cons_ok hb herr] at hp
        dsimp only at hp
        rcases List.mem_append.mp hp with h | h
        · rcases processModern_fetches env r fn st with h0 | ⟨url, h1⟩
          · rw [h0] at h
            cases h
          · rw [h1] at h
            rw [List.mem_singleton.mp h]
            exact List.mem_map.mpr ⟨r, List.mem_cons_self r rest, rfl⟩
        · rw [List.map_cons]
          exact List.mem_cons_of_mem _ (ih _ _ p h)

/-- **C2 (amended).** Version-boundary property: for every catalog
containing the boundary release (first occurrence of version `0.7.3`),
the upload loop behaves exactly as if the catalog stopped just before
the boundary: no network fetch is attempted for the boundary or for any
release returned at or after it in the catalog's order — every fetched
version name belongs to the releases before the boundary. -/
theorem upload_no_fetch_at_or_after_boundary (env : Env) (pre post : List Release)
    (b : Release) (fn : Option String) (st : Store)
    (hb : get_name b = "0.7.3") (hpre : ∀ r ∈ pre, get_name r ≠ "0.7.3") :
    uploadModernLoop env (pre ++ b :: post) fn st = uploadModernLoop env pre fn st ∧
      ∀ p ∈ (uploadModernLoop env (pre ++ b :: post) fn st).fetches,
        p.1 ∈ pre.map get_name := by
  refine ⟨uploadModernLoop_break_at env b post hb pre fn st hpre, ?_⟩
  intro p hp
  rw [uploadModernLoop_break_at env b post hb pre fn st hpre] at hp
  exact uploadModernLoop_fetch_names env pre fn st p hp

/-- Witness for the amended C2 at a concrete catalog `[v1.0.0, v0.7.3,
v0.6.0]`: the run equals the run on `[v1.0.0]` alone. -/
theorem upload_no_fetch_at_or_after_boundary_witness :
    uploadModernLoop envC [relModern, relBoundary,
        { tag_name := "v0.6.0", name := "v0.6.0", body := none,
          created_at := "2016-04-19T00:00:00Z", assets := [] }] none [] =
      uploadModernLoop envC [relModern] none [] :=
  (upload_no_fetch_at_or_after_boundary envC [relModern]
      [{ tag_name := "v0.6.0", name := "v0.6.0", body := none,
         created_at := "2016-04-19T00:00:00Z", assets := [] }]
      relBoundary none [] (by decide) (by decide)).1

/-- Counterexample to C2 as stated: with catalog `[v1.0.0, v0.7.3]` the
upload loop does attempt a network fetch for `v1.0.0`, a release
returned before the boundary in the catalog's order (the claim asserts
no fetch happens for releases before the boundary; in the code the
break skips the boundary and everything after it instead). -/
theorem upload_fetch_before_boundary_counterexample :
    get_name relBoundary = "0.7.3" ∧
      (uploadModernLoop envC [relModern, relBoundary] none []).fetches =
        [(get_name relModern, "https://dl/riot.tar.gz")] := by
  constructor
  · decide
  · decide

/-! ## Ambiguous assets (C3) -/

theorem get_download_link_of_ambiguous {r : Release}
    (hamb : (r.assets.filter (fun a => strEndsWith a.name ".tar.gz")).length ≠ 1) :
    get_download_link r = none := by
  unfold get_download_link
  cases hft : r.assets.filter (fun a => strEndsWith a.name ".tar.gz") with
  | nil => rfl
  | cons a tl =>
    cases tl with
    | nil =>
      rw [hft] at hamb
      simp at hamb
    | cons b tl2 => rfl

/-- **C3 (amended).** Ambiguous-asset handling: for every unmarked
release (other than the boundary) whose asset list contains zero or
more than one name ending in `.tar.gz`, `get_download_link` returns
`None` and `upload` then calls `requests.get(None)`, which raises
`MissingSchema`: the run fails at that release, with no network fetch
attempted, no store write performed, and no marker written — the
release remains unpublished, but the run aborts rather than silently
skipping the release. -/
theorem ambiguous_asset_aborts_run (env : Env) (r : Release) (rest : List Release)
    (fn : Option String) (st : Store)
    (hamb : (r.assets.filter (fun a => strEndsWith a.name ".tar.gz")).length ≠ 1)
    (hb : ¬ get_name r = "0.7.3")
    (hunm : isUploadedPure st (get_name r) = false) :
    uploadModernLoop env (r :: rest) fn st =
      ⟨st, [], [], some PyErr.missingSchema⟩ := by
  have hstep : processModern env r fn st = ⟨st, [], [], fn, some PyErr.missingSchema⟩ := by
    simp only [processModern]
    rw [if_neg (by rw [hunm]; simp), get_download_link_of_ambiguous hamb]
  rw [uploadModernLoop_cons_err hb (by rw [hstep])]
  rw [hstep]

/-- Witness for the amended C3: the two-tarball release aborts the run
on an empty store. -/
theorem ambiguous_asset_aborts_run_witness :
    uploadModernLoop envC [relAmbiguous] none [] =
      ⟨[], [], [], some PyErr.missingSchema⟩ :=
  ambiguous_asset_aborts_run envC relAmbiguous [] none []
    (by decide) (by decide) (by decide)

/-- Counterexample to C3 as stated: for the release with two `.tar.gz`
assets, the run does fail — `upload` raises (`requests.get(None)`,
`MissingSchema`) instead of silently skipping the release; no fetch is
attempted, no write happens, and the release stays unpublished. -/
theorem ambiguous_asset_run_fails_counterexample :
    get_download_link relAmbiguous = none ∧
      (uploadModernLoop envC [relAmbiguous] none []).err = some PyErr.missingSchema ∧
      (uploadModernLoop envC [relAmbiguous] none []).fetches = [] ∧
      (uploadModernLoop envC [relAmbiguous] none []).writes = [] ∧
      isUploadedPure (uploadModernLoop envC [relAmbiguous] none []).store
        (get_name relAmbiguous) = false := by
  refine ⟨by decide, by decide, by decide, by decide, by decide⟩

end Riots
